import Mathlib

/-!
Shallow embedding of the AMX dot-product lowering pass
(`ConvertDotToAMX.cpp` of the triton-cpu repository).

The embedding models the compile-time analysis and planning performed by the
pass: element-type legalization (`checkElemTypes`), shape checking
(`checkInputShapes`), tile/block size planning (`setupBlockAndTileSizes`),
candidate acceptance (`isAmxCandidate`), the row-interleaving ("packing")
layout transform (`interleaveAndStore`), the per-block instruction emission of
`convertCandidate` / `multiplyBlocksPreloadLhs` / `multiplyBlocksPreloadRhs`,
and the top-level `runOnOperation` driver.

Machine `int64_t` values appearing in the pass are vector dimensions and tile
counts, all non-negative and far from overflow, so they are modelled as `Nat`;
C++ integer division on non-negative values coincides with `Nat` division.
-/

namespace ConvertDotToAMX

/-- MLIR element types that can reach the pass: integers of any width and the
floating-point types relevant to the AMX paths.  Distinct 8-bit float
encodings are modelled so that type equality (`rhsElemTy != commonInputElemTy`
in the source) is meaningful. -/
inductive ElemTy where
  | int (width : Nat)
  | f8e4m3
  | f8e5m2
  | f16
  | bf16
  | f32
  | f64
deriving DecidableEq, Repr

/-- `Type::getIntOrFloatBitWidth`. -/
def ElemTy.bitWidth : ElemTy → Nat
  | .int w => w
  | .f8e4m3 => 8
  | .f8e5m2 => 8
  | .f16 => 16
  | .bf16 => 16
  | .f32 => 32
  | .f64 => 64

/-- `Type::isInteger()`. -/
def ElemTy.isInteger : ElemTy → Bool
  | .int _ => true
  | _ => false

/-- `Type::isInteger(w)`. -/
def ElemTy.isIntegerW (t : ElemTy) (w : Nat) : Bool :=
  match t with
  | .int w2 => w2 == w
  | _ => false

/-- `Type::isF16()`. -/
def ElemTy.isF16 : ElemTy → Bool
  | .f16 => true
  | _ => false

/-- `Type::isBF16()`. -/
def ElemTy.isBF16 : ElemTy → Bool
  | .bf16 => true
  | _ => false

/-- The legalized tile element types computed by `checkElemTypes` on success:
LHS, RHS and accumulator tile element types. -/
structure TileElemTypes where
  lhsTileElemTy : ElemTy
  rhsTileElemTy : ElemTy
  accTileElemTy : ElemTy
deriving DecidableEq, Repr

/-- The common-input-type search of `checkElemTypes`
(ConvertDotToAMX.cpp:119-135): `none` models the early `return false` on
mismatched 16-bit inputs. -/
def commonFpInputElemTy (lhsElemTy rhsElemTy : ElemTy)
    (supportBf16 : Bool) : Option ElemTy :=
  if lhsElemTy.bitWidth == 16 then
    if rhsElemTy.bitWidth == 16 && rhsElemTy ≠ lhsElemTy then none
    else some lhsElemTy
  else if rhsElemTy.bitWidth == 16 then some rhsElemTy
  -- Both inputs are FP8, choose 16-bit FP type to use.
  else if supportBf16 then some .bf16
  else some .f16

/-- `checkElemTypes` (ConvertDotToAMX.cpp:75-158).  Returns `some` of the
legalized tile element types when AMX usage is possible for the given operand
and result element types under the given capability flags, `none` when the
candidate is dropped. -/
def checkElemTypes (lhsElemTy rhsElemTy accElemTy resElemTy : ElemTy)
    (supportInt8 supportFp16 supportBf16 : Bool) : Option TileElemTypes :=
  if lhsElemTy.isInteger then
    if !supportInt8 then none
    else if !(lhsElemTy.isIntegerW 8) || !(rhsElemTy.isIntegerW 8) then none
    else if !accElemTy.isInteger || accElemTy.bitWidth > 32 ||
        !resElemTy.isInteger || resElemTy.bitWidth > 32 then none
    else some ⟨.int 8, .int 8, .int 32⟩
  else
    -- FP case. Expect no integer args or result.
    if rhsElemTy.isInteger || accElemTy.isInteger || resElemTy.isInteger then none
    else if lhsElemTy.bitWidth > 16 || rhsElemTy.bitWidth > 16 then none
    else
      match commonFpInputElemTy lhsElemTy rhsElemTy supportBf16 with
      | none => none
      | some commonInputElemTy =>
        if commonInputElemTy.isF16 && !supportFp16 then none
        else if commonInputElemTy.isBF16 && !supportBf16 then none
        else if accElemTy.bitWidth > 32 then none
        else some ⟨commonInputElemTy, commonInputElemTy, .f32⟩

/-- `checkInputShapes` (ConvertDotToAMX.cpp:162-171): rank must be 2 and the
LHS rows, LHS columns and result columns must all be at least 8. -/
def checkInputShapes (lhsShape resShape : List Nat) : Bool :=
  if lhsShape.length ≠ 2 then false
  else if lhsShape.getD 0 0 < 8 || lhsShape.getD 1 0 < 8 ||
      resShape.getD 1 0 < 8 then false
  else true

/-- One iteration of the block-halving loop (ConvertDotToAMX.cpp:202-207):
halve `accBlocksM` when it is strictly larger than `accBlocksN`, otherwise
halve `accBlocksN`. -/
def halveStep (accBlocksM accBlocksN : Nat) : Nat × Nat :=
  if accBlocksM > accBlocksN then (accBlocksM / 2, accBlocksN)
  else (accBlocksM, accBlocksN / 2)

/-- While the loop guard holds, one halving step strictly decreases the
product `accBlocksM * accBlocksN`. -/
theorem halveStep_decreases (m n : Nat) (h : 4 < m * n) :
    (halveStep m n).1 * (halveStep m n).2 < m * n := by
  unfold halveStep
  split
  · rename_i hgt
    have hn : 0 < n := by
      rcases Nat.eq_zero_or_pos n with h0 | h0
      · subst h0; simp at h
      · exact h0
    exact mul_lt_mul_of_pos_right (Nat.div_lt_self (by omega) (by omega)) hn
  · rename_i hle
    have hm : 0 < m := by
      rcases Nat.eq_zero_or_pos m with h0 | h0
      · subst h0; simp at h
      · exact h0
    have hn2 : 2 ≤ n := by
      by_contra hc
      push_neg at hc
      have hm1 : m ≤ 1 := by omega
      have hn1 : n ≤ 1 := by omega
      have : m * n ≤ 1 * 1 := Nat.mul_le_mul hm1 hn1
      omega
    exact mul_lt_mul_of_pos_left (Nat.div_lt_self (by omega) (by omega)) hm

/-- The `while (accBlocksM * accBlocksN > 4)` loop of
`setupBlockAndTileSizes` (ConvertDotToAMX.cpp:202-207). -/
def halveBlocks (accBlocksM accBlocksN : Nat) : Nat × Nat :=
  if h : accBlocksM * accBlocksN > 4 then
    halveBlocks (halveStep accBlocksM accBlocksN).1 (halveStep accBlocksM accBlocksN).2
  else (accBlocksM, accBlocksN)
termination_by accBlocksM * accBlocksN
decreasing_by
  exact halveStep_decreases _ _ h

/-- Tile and block sizes chosen by the planner. -/
structure TileSizes where
  tileM : Nat
  tileN : Nat
  tileK : Nat
  tilesInBlockM : Nat
  tilesInBlockN : Nat
deriving DecidableEq, Repr

/-- `setupBlockAndTileSizes` (ConvertDotToAMX.cpp:185-214), as a function of
the LHS shape, the result shape and the bit-width of the legalized LHS tile
element type. -/
def setupBlockAndTileSizes (lhsShape resShape : List Nat)
    (lhsTileElemBW : Nat) : TileSizes :=
  let m := resShape.getD 0 0
  let n := resShape.getD 1 0
  let k := lhsShape.getD 1 0
  let tileM := min m 16
  let tileN := min n 16
  let tileK := min k (512 / lhsTileElemBW)
  let accBlocks := halveBlocks (m / tileM) (n / tileN)
  ⟨tileM, tileN, tileK, accBlocks.1, accBlocks.2⟩

/-- The inputs of `isAmxCandidate` that the analysis reads from a `cpu::DotOp`
and its surroundings: operand/result shapes and element types, whether the
accumulator is loop-carried (`isLoopCarriedAcc`), and whether the relevant
result value has a single unmasked `vector.transfer_write` use
(`findOutputBuffer`'s success condition, determined by the IR around the op). -/
structure DotInput where
  lhsShape : List Nat
  resShape : List Nat
  lhsElemTy : ElemTy
  rhsElemTy : ElemTy
  accElemTy : ElemTy
  resElemTy : ElemTy
  loopCarriedAcc : Bool
  singleUnmaskedStoreUse : Bool
deriving DecidableEq, Repr

/-- `AmxDotOpCandidate` (ConvertDotToAMX.cpp:35-69), restricted to the fields
the analysis fills: legalized tile element types, tile/block sizes,
accumulator placement flags and whether an output buffer was found. -/
structure AmxDotOpCandidate where
  lhsTileElemTy : ElemTy
  rhsTileElemTy : ElemTy
  accTileElemTy : ElemTy
  tileM : Nat
  tileN : Nat
  tileK : Nat
  tilesInBlockM : Nat
  tilesInBlockN : Nat
  keepAccOnTiles : Bool
  keepAccInBuf : Bool
  hasOutBuf : Bool
deriving DecidableEq, Repr

/-- `isAmxCandidate` (ConvertDotToAMX.cpp:231-276).  Returns `some` of the
filled candidate descriptor when the dot operation can be lowered to AMX,
`none` otherwise. -/
def isAmxCandidate (inp : DotInput)
    (supportInt8 supportFp16 supportBf16 : Bool) : Option AmxDotOpCandidate :=
  match checkElemTypes inp.lhsElemTy inp.rhsElemTy inp.accElemTy inp.resElemTy
      supportInt8 supportFp16 supportBf16 with
  | none => none
  | some tys =>
    if !checkInputShapes inp.lhsShape inp.resShape then none
    else
      let ts := setupBlockAndTileSizes inp.lhsShape inp.resShape
        tys.lhsTileElemTy.bitWidth
      let m := inp.resShape.getD 0 0
      let n := inp.resShape.getD 1 0
      if inp.loopCarriedAcc then
        if ts.tilesInBlockM * ts.tileM < m || ts.tilesInBlockN * ts.tileN < n then
          -- Accumulator too big to keep on tiles: keep it bufferized instead;
          -- `findOutputBuffer` is not reached on this path.
          some ⟨tys.lhsTileElemTy, tys.rhsTileElemTy, tys.accTileElemTy,
            ts.tileM, ts.tileN, ts.tileK, ts.tilesInBlockM, ts.tilesInBlockN,
            false, true, false⟩
        else
          some ⟨tys.lhsTileElemTy, tys.rhsTileElemTy, tys.accTileElemTy,
            ts.tileM, ts.tileN, ts.tileK, ts.tilesInBlockM, ts.tilesInBlockN,
            true, false, inp.singleUnmaskedStoreUse⟩
      else
        some ⟨tys.lhsTileElemTy, tys.rhsTileElemTy, tys.accTileElemTy,
          ts.tileM, ts.tileN, ts.tileK, ts.tilesInBlockM, ts.tilesInBlockN,
          false, false, inp.singleUnmaskedStoreUse⟩

/-! ## Spec-worded reference definitions

These definitions follow the wording of the specification's claims (not the
source); they exist to be compared with the definitions translated from the
source. -/

/-- The halving loop exactly as claim C1 words it: while the product exceeds
4, halve whichever of the two is larger, with ties favoring shrinking
`accBlocksM` (the M side). -/
def halveBlocksTieM (accBlocksM accBlocksN : Nat) : Nat × Nat :=
  if h : 4 < accBlocksM * accBlocksN then
    if accBlocksN > accBlocksM then
      halveBlocksTieM accBlocksM (accBlocksN / 2)
    else
      halveBlocksTieM (accBlocksM / 2) accBlocksN
  else (accBlocksM, accBlocksN)
termination_by accBlocksM * accBlocksN
decreasing_by
  · have hm : 0 < accBlocksM := by
      rcases Nat.eq_zero_or_pos accBlocksM with h0 | h0
      · subst h0; simp at h
      · exact h0
    exact mul_lt_mul_of_pos_left (Nat.div_lt_self (by omega) (by omega)) hm
  · rename_i hle
    have hn : 0 < accBlocksN := by
      rcases Nat.eq_zero_or_pos accBlocksN with h0 | h0
      · subst h0; simp at h
      · exact h0
    have hm2 : 2 ≤ accBlocksM := by
      by_contra hc
      push_neg at hc
      have hm1 : accBlocksM ≤ 1 := by omega
      have hn1 : accBlocksN ≤ 1 := by omega
      have : accBlocksM * accBlocksN ≤ 1 * 1 := Nat.mul_le_mul hm1 hn1
      omega
    exact mul_lt_mul_of_pos_right (Nat.div_lt_self (by omega) (by omega)) hn

/-- The size planner exactly as claim C1 words it: `tileM = min(M,16)`,
`tileN = min(N,16)`, `tileK = min(K, 512/bw)`, block counts start from
`M/tileM` and `N/tileN` and are reduced by `halveBlocksTieM`. -/
def claimC1Planner (M N K bw : Nat) : TileSizes :=
  let tileM := min M 16
  let tileN := min N 16
  let tileK := min K (512 / bw)
  let accBlocks := halveBlocksTieM (M / tileM) (N / tileN)
  ⟨tileM, tileN, tileK, accBlocks.1, accBlocks.2⟩

/-- The amended halving rule, in the amended claim's words: while the product
exceeds 4, halve whichever of the two is larger, with ties favoring shrinking
`accBlocksN` (the N side): when `accBlocksN` is at least `accBlocksM`, the N
side shrinks, otherwise the M side does. -/
def halveBlocksTieN (accBlocksM accBlocksN : Nat) : Nat × Nat :=
  if h : 4 < accBlocksM * accBlocksN then
    if accBlocksN ≥ accBlocksM then
      halveBlocksTieN accBlocksM (accBlocksN / 2)
    else
      halveBlocksTieN (accBlocksM / 2) accBlocksN
  else (accBlocksM, accBlocksN)
termination_by accBlocksM * accBlocksN
decreasing_by
  · rename_i hge
    have hm : 0 < accBlocksM := by
      rcases Nat.eq_zero_or_pos accBlocksM with h0 | h0
      · subst h0; simp at h
      · exact h0
    have hn2 : 2 ≤ accBlocksN := by
      by_contra hc
      push_neg at hc
      have hm1 : accBlocksM ≤ 1 := by omega
      have hn1 : accBlocksN ≤ 1 := by omega
      have : accBlocksM * accBlocksN ≤ 1 * 1 := Nat.mul_le_mul hm1 hn1
      omega
    exact mul_lt_mul_of_pos_left (Nat.div_lt_self (by omega) (by omega)) hm
  · have hn : 0 < accBlocksN := by
      rcases Nat.eq_zero_or_pos accBlocksN with h0 | h0
      · subst h0; simp at h
      · exact h0
    exact mul_lt_mul_of_pos_right (Nat.div_lt_self (by omega) (by omega)) hn

/-- The size planner as the amended claim words it: identical to
`claimC1Planner` except that ties in the halving loop shrink the N side. -/
def amendedC1Planner (M N K bw : Nat) : TileSizes :=
  let tileM := min M 16
  let tileN := min N 16
  let tileK := min K (512 / bw)
  let accBlocks := halveBlocksTieN (M / tileM) (N / tileN)
  ⟨tileM, tileN, tileK, accBlocks.1, accBlocks.2⟩

/-- The common-input-type resolution exactly as claim C4 words it: if both
inputs are 16-bit but of different encodings, reject; if exactly one input is
16-bit, the other is promoted to it; if neither is 16-bit, use brain-float
when brain-float support is enabled, else plain 16-bit float. -/
def commonFpInputElemTySpec (lhsElemTy rhsElemTy : ElemTy)
    (supportBf16 : Bool) : Option ElemTy :=
  if lhsElemTy.bitWidth = 16 ∧ rhsElemTy.bitWidth = 16 then
    if lhsElemTy = rhsElemTy then some lhsElemTy else none
  else if lhsElemTy.bitWidth = 16 then some lhsElemTy
  else if rhsElemTy.bitWidth = 16 then some rhsElemTy
  else if supportBf16 then some .bf16
  else some .f16

/-- The floating-point legalization pipeline as claim C4 words it: resolve
the common input type, reject when the capability flag for the resolved type
is disabled, reject accumulators wider than 32 bits, otherwise legalize to
the common input type with a 32-bit float accumulator. -/
def checkElemTypesFpSpec (lhsElemTy rhsElemTy accElemTy : ElemTy)
    (supportFp16 supportBf16 : Bool) : Option TileElemTypes :=
  match commonFpInputElemTySpec lhsElemTy rhsElemTy supportBf16 with
  | none => none
  | some common =>
    if (common = .f16 ∧ supportFp16 = false) ∨
        (common = .bf16 ∧ supportBf16 = false) then none
    else if 32 < accElemTy.bitWidth then none
    else some ⟨common, common, .f32⟩

/-! ## Row interleaving (packing) -/

/-- `32 / valTy.getElementTypeBitWidth()` (ConvertDotToAMX.cpp:295): the number
of consecutive rows merged into one packed row. -/
def rowsPerGroup (elemBW : Nat) : Nat := 32 / elemBW

/-- `vector::InterleaveOp` on two rows: alternate elements of the two inputs,
stopping when either runs out (the hardware op acts on equal-length rows). -/
def op_interleave {α : Type} : List α → List α → List α
  | a :: as, b :: bs => a :: b :: op_interleave as bs
  | _, _ => []

/-- The loop body of `interleaveAndStore` for `rowsPerGroup = 2`
(ConvertDotToAMX.cpp:301-303, 308): each packed row is
`interleave(row i, row i+1)`. -/
def interleaveAndStore2 {α : Type} : List (List α) → List (List α)
  | r1 :: r2 :: rest => op_interleave r1 r2 :: interleaveAndStore2 rest
  | _ => []

/-- The loop body of `interleaveAndStore` for `rowsPerGroup = 4`
(ConvertDotToAMX.cpp:304-308): each packed row is
`interleave(interleave(row i, row i+2), interleave(row i+1, row i+3))`. -/
def interleaveAndStore4 {α : Type} : List (List α) → List (List α)
  | r1 :: r2 :: r3 :: r4 :: rest =>
    op_interleave (op_interleave r1 r3) (op_interleave r2 r4) ::
      interleaveAndStore4 rest
  | _ => []

/-- `interleaveAndStore` (ConvertDotToAMX.cpp:291-312), as the sequence of
packed rows written to the buffer.  The `rowsPerGroup == 2` test inside the
source's loop body is loop-invariant, so it is hoisted into a dispatch here. -/
def interleaveAndStore {α : Type} (rowsPerGroup : Nat)
    (rows : List (List α)) : List (List α) :=
  if rowsPerGroup = 2 then interleaveAndStore2 rows
  else interleaveAndStore4 rows

/-- Split a packed row back into the two rows it interleaves: the inverse of
`op_interleave` on equal-length rows. -/
def deinterleave {α : Type} : List α → List α × List α
  | a :: b :: rest => (a :: (deinterleave rest).1, b :: (deinterleave rest).2)
  | l => (l, [])

/-- Inverse of `interleaveAndStore2`, restoring the original row order. -/
def unpackRows2 {α : Type} : List (List α) → List (List α)
  | r :: rest =>
    (deinterleave r).1 :: (deinterleave r).2 :: unpackRows2 rest
  | [] => []

/-- Inverse of `interleaveAndStore4`, restoring the original row order. -/
def unpackRows4 {α : Type} : List (List α) → List (List α)
  | r :: rest =>
    (deinterleave (deinterleave r).1).1 ::
      (deinterleave (deinterleave r).2).1 ::
      (deinterleave (deinterleave r).1).2 ::
      (deinterleave (deinterleave r).2).2 :: unpackRows4 rest
  | [] => []

/-- Unpack the rows produced by `interleaveAndStore`, restoring the original
row order: the mathematical inverse of the packing transform. -/
def unpackRows {α : Type} (rowsPerGroup : Nat)
    (rows : List (List α)) : List (List α) :=
  if rowsPerGroup = 2 then unpackRows2 rows
  else unpackRows4 rows

/-! ## Per-block instruction emission -/

/-- The AMX dialect operations emitted by the code generator. -/
inductive AmxInstr where
  | tileLoad
  | tileZero
  | tileMulI
  | tileMulF
  | tileStore
deriving DecidableEq, Repr

/-- Whether an instruction is a hardware multiply-accumulate
(`amx::TileMulIOp` or `amx::TileMulFOp`). -/
def AmxInstr.isMul : AmxInstr → Bool
  | .tileMulI => true
  | .tileMulF => true
  | _ => false

/-- `loadBlockTiles` (ConvertDotToAMX.cpp:480-494) as the instruction sequence
it emits: one tile load per tile of the block when the buffer is non-null,
one tile zero otherwise. -/
def loadBlockTiles (bufNonNull : Bool) (tilesInBlockM tilesInBlockN : Nat) :
    List AmxInstr :=
  (List.range tilesInBlockM).flatMap fun _ =>
    (List.range tilesInBlockN).map fun _ =>
      if bufNonNull then AmxInstr.tileLoad else AmxInstr.tileZero

/-- `multiplyBlocksPreloadLhs` (ConvertDotToAMX.cpp:513-546) as the
instruction sequence it emits: load the LHS block (`tilesInBlockM × 1`
tiles), then for each RHS tile load it and issue one multiply per LHS tile,
optionally followed by an accumulator tile store. -/
def multiplyBlocksPreloadLhs (accIsInteger : Bool)
    (tilesInBlockM tilesInBlockN : Nat) (storeResult : Bool) : List AmxInstr :=
  loadBlockTiles true tilesInBlockM 1 ++
    ((List.range tilesInBlockN).flatMap fun _ =>
      AmxInstr.tileLoad ::
        ((List.range tilesInBlockM).flatMap fun _ =>
          (if accIsInteger then AmxInstr.tileMulI else AmxInstr.tileMulF) ::
            (if storeResult then [AmxInstr.tileStore] else [])))

/-- `multiplyBlocksPreloadRhs` (ConvertDotToAMX.cpp:549-582) as the
instruction sequence it emits: load the RHS block (`1 × tilesInBlockN`
tiles), then for each LHS tile load it and issue one multiply per RHS tile,
optionally followed by an accumulator tile store. -/
def multiplyBlocksPreloadRhs (accIsInteger : Bool)
    (tilesInBlockM tilesInBlockN : Nat) (storeResult : Bool) : List AmxInstr :=
  loadBlockTiles true 1 tilesInBlockN ++
    ((List.range tilesInBlockM).flatMap fun _ =>
      AmxInstr.tileLoad ::
        ((List.range tilesInBlockN).flatMap fun _ =>
          (if accIsInteger then AmxInstr.tileMulI else AmxInstr.tileMulF) ::
            (if storeResult then [AmxInstr.tileStore] else [])))

/-- The instruction sequence `convertCandidate` emits for one accumulator
block `(blockM, blockN)` (ConvertDotToAMX.cpp:666-696): load the accumulator
block (unless it is kept on tiles across the loop), then for each reduction
block along K invoke the multiply routine that preloads the smaller input
block, storing the accumulator on the last reduction step unless it is kept
on tiles.  `lhsK` is `lhsTy.getDimSize(1)`; `accBufNonNull` tells whether
the accumulator buffer was materialized (it is skipped for an all-zero
accumulator). -/
def accBlockInstrs (c : AmxDotOpCandidate) (lhsK : Nat)
    (accBufNonNull : Bool) : List AmxInstr :=
  let tilesInVectorK := lhsK / c.tileK
  (if !c.keepAccOnTiles then
    loadBlockTiles accBufNonNull c.tilesInBlockM c.tilesInBlockN
  else []) ++
    ((List.range tilesInVectorK).flatMap fun blocK =>
      let storeAcc := !c.keepAccOnTiles && (blocK == tilesInVectorK - 1)
      if c.tilesInBlockM ≤ c.tilesInBlockN then
        multiplyBlocksPreloadLhs c.accTileElemTy.isInteger c.tilesInBlockM
          c.tilesInBlockN storeAcc
      else
        multiplyBlocksPreloadRhs c.accTileElemTy.isInteger c.tilesInBlockM
          c.tilesInBlockN storeAcc)

/-! ## Top-level pass driver -/

/-- An operation of the module as seen by the pass: a dot operation it may
convert, the AMX lowering of a converted dot, or any other operation, which
the pass never touches. -/
inductive UnitOp where
  | dot (inp : DotInput)
  | amxLowered (c : AmxDotOpCandidate)
  | other (id : Nat)
deriving DecidableEq, Repr

/-- The candidate-collection walk of `runOnOperation`
(ConvertDotToAMX.cpp:812-835): every dot operation accepted by
`isAmxCandidate` is recorded, paired with its descriptor. -/
def collectCandidates (supportInt8 supportFp16 supportBf16 : Bool)
    (unit : List UnitOp) : List (DotInput × AmxDotOpCandidate) :=
  unit.filterMap fun op =>
    match op with
    | .dot inp =>
      (isAmxCandidate inp supportInt8 supportFp16 supportBf16).map
        (fun c => (inp, c))
    | _ => none

/-- The module-level effect of converting one candidate: the candidate's dot
operation is replaced by its AMX lowering; every other operation is left in
place. -/
def convertCandidateInUnit (target : DotInput) (c : AmxDotOpCandidate)
    (unit : List UnitOp) : List UnitOp :=
  unit.map fun op => if op = UnitOp.dot target then UnitOp.amxLowered c else op

/-- `ConvertDotToAMX::runOnOperation` (ConvertDotToAMX.cpp:805-847): return
immediately when all three capability flags are disabled; otherwise collect
all candidates in one walk, then convert them in discovery order. -/
def runOnOperation (convertInt8 convertFp16 convertBf16 : Bool)
    (unit : List UnitOp) : List UnitOp :=
  if !convertInt8 && !convertFp16 && !convertBf16 then unit
  else
    (collectCandidates convertInt8 convertFp16 convertBf16 unit).foldl
      (fun u pc => convertCandidateInUnit pc.1 pc.2 u) unit

/-! ## Properties of the halving loop -/

/-- A halving step keeps both block counts positive while the loop guard
holds. -/
theorem halveStep_pos (m n : Nat) (h : 4 < m * n) :
    1 ≤ (halveStep m n).1 ∧ 1 ≤ (halveStep m n).2 := by
  have hm : 0 < m := by
    rcases Nat.eq_zero_or_pos m with h0 | h0
    · subst h0; simp at h
    · exact h0
  have hn : 0 < n := by
    rcases Nat.eq_zero_or_pos n with h0 | h0
    · subst h0; simp at h
    · exact h0
  unfold halveStep
  split
  · rename_i hgt
    constructor
    · have : 2 ≤ m := by omega
      omega
    · exact hn
  · rename_i hle
    constructor
    · exact hm
    · have hn2 : 2 ≤ n := by
        by_contra hc
        push_neg at hc
        have hm1 : m ≤ 1 := by omega
        have hn1 : n ≤ 1 := by omega
        have : m * n ≤ 1 * 1 := Nat.mul_le_mul hm1 hn1
        omega
      omega

/-- On exit, the product of the block counts is at most 4. -/
theorem halveBlocks_prod_le (m n : Nat) :
    (halveBlocks m n).1 * (halveBlocks m n).2 ≤ 4 := by
  induction m, n using halveBlocks.induct with
  | case1 m n h ih =>
    rw [halveBlocks, dif_pos h]
    exact ih
  | case2 m n h =>
    rw [halveBlocks, dif_neg h]
    exact Nat.le_of_not_lt h

/-- The halving loop keeps both block counts positive. -/
theorem halveBlocks_pos (m n : Nat) (hm : 1 ≤ m) (hn : 1 ≤ n) :
    1 ≤ (halveBlocks m n).1 ∧ 1 ≤ (halveBlocks m n).2 := by
  induction m, n using halveBlocks.induct with
  | case1 m n h ih =>
    rw [halveBlocks, dif_pos h]
    exact ih (halveStep_pos m n h).1 (halveStep_pos m n h).2
  | case2 m n h =>
    rw [halveBlocks, dif_neg h]
    exact ⟨hm, hn⟩

/-- The loop translated from the source agrees everywhere with the amended
wording "halve the larger side, ties shrink the N side". -/
theorem halveBlocks_eq_tieN (m n : Nat) :
    halveBlocks m n = halveBlocksTieN m n := by
  induction m, n using halveBlocks.induct with
  | case1 m n h ih =>
    rw [halveBlocks, dif_pos h, halveBlocksTieN, dif_pos h]
    rw [ih]
    unfold halveStep
    rcases Nat.lt_or_ge n m with hgt | hge
    · have h1 : m > n := hgt
      have h2 : ¬ (n ≥ m) := by omega
      simp only [h1, if_pos, h2, if_neg, not_false_iff]
    · have h1 : ¬ (m > n) := by omega
      have h2 : n ≥ m := hge
      simp only [h1, if_neg, not_false_iff, h2, if_pos]
  | case2 m n h =>
    rw [halveBlocks, dif_neg h, halveBlocksTieN, dif_neg h]

/-! ## Claim theorems -/

/-- C1 (counterexample): at `M = N = 48`, `K = 16`, 8-bit inputs, the size
planner as claim C1 words it (ties in the halving loop shrink the M side)
disagrees with the planner translated from the source: the source yields
`tilesInBlockM = 3, tilesInBlockN = 1`, the claim's rule yields
`tilesInBlockM = 1, tilesInBlockN = 3`. -/
theorem C1_counterexample :
    claimC1Planner 48 48 16 8 ≠ setupBlockAndTileSizes [48, 16] [48, 48] 8 := by
  simp [setupBlockAndTileSizes, claimC1Planner, halveBlocks, halveBlocksTieM,
    halveStep]

/-- C1 (amended): for every candidate with logical dimensions `M, N, K` and
legalized input bit-width `bw`, the size planner computes
`tileM = min(M,16)`, `tileN = min(N,16)`, `tileK = min(K, 512/bw)`, starts
from `accBlocksM = M/tileM`, `accBlocksN = N/tileN`, and while their product
exceeds 4 halves whichever of the two is larger, with ties favoring shrinking
`accBlocksN` (the N side). -/
theorem C1_planner_amended (M N K bw : Nat) :
    setupBlockAndTileSizes [M, K] [M, N] bw = amendedC1Planner M N K bw := by
  unfold setupBlockAndTileSizes amendedC1Planner
  simp [halveBlocks_eq_tieN]

/-- C10: the size planner's block-halving loop terminates: while the product
of the block counts exceeds 4, each halving step strictly decreases it, and
for every input with `M ≥ 8` and `N ≥ 8` the planner exits with both
`tilesInBlockM` and `tilesInBlockN` at least 1. -/
theorem C10_halving_terminates :
    (∀ m n : Nat, 4 < m * n →
      (halveStep m n).1 * (halveStep m n).2 < m * n) ∧
    ∀ M N K bw : Nat, 8 ≤ M → 8 ≤ N →
      1 ≤ (setupBlockAndTileSizes [M, K] [M, N] bw).tilesInBlockM ∧
      1 ≤ (setupBlockAndTileSizes [M, K] [M, N] bw).tilesInBlockN := by
  constructor
  · exact halveStep_decreases
  · intro M N K bw hM hN
    unfold setupBlockAndTileSizes
    simp only [List.getD]
    have hm1 : 1 ≤ M / min M 16 := by
      rw [Nat.one_le_div_iff (by omega)]
      omega
    have hn1 : 1 ≤ N / min N 16 := by
      rw [Nat.one_le_div_iff (by omega)]
      omega
    exact halveBlocks_pos _ _ hm1 hn1

/-- C10 (witness): the strict decrease and the exit positivity at concrete
inputs. -/
theorem C10_halving_terminates_witness :
    (halveStep 4 2).1 * (halveStep 4 2).2 < 4 * 2 ∧
    1 ≤ (setupBlockAndTileSizes [48, 16] [48, 48] 8).tilesInBlockM ∧
    1 ≤ (setupBlockAndTileSizes [48, 16] [48, 48] 8).tilesInBlockN :=
  ⟨C10_halving_terminates.1 4 2 (by decide),
   (C10_halving_terminates.2 48 48 16 8 (by decide) (by decide)).1,
   (C10_halving_terminates.2 48 48 16 8 (by decide) (by decide)).2⟩

/-! ## Properties of the shape check and the analyzer -/

/-- Unfolding of a successful `checkInputShapes`. -/
theorem checkInputShapes_eq_true (lhsShape resShape : List Nat) :
    checkInputShapes lhsShape resShape = true ↔
      lhsShape.length = 2 ∧ 8 ≤ lhsShape.getD 0 0 ∧ 8 ≤ lhsShape.getD 1 0 ∧
        8 ≤ resShape.getD 1 0 := by
  unfold checkInputShapes
  split_ifs with h1 h2
  · constructor
    · intro hF; exact absurd hF (by simp)
    · intro hc; exact absurd hc.1 h1
  · constructor
    · intro hF; exact absurd hF (by simp)
    · intro hc
      simp only [decide_eq_true_eq, Bool.or_eq_true] at h2
      omega
  · simp only [true_iff]
    push_neg at h1
    simp only [Bool.or_eq_true, decide_eq_true_eq, not_or] at h2
    omega

/-- Everything a successful `isAmxCandidate` run guarantees about the
descriptor it fills: the shape check passed, the tile element types are the
legalized ones, the tile/block sizes are the planner's, and the accumulator
flags follow the loop-carried analysis. -/
theorem isAmxCandidate_some_elim (inp : DotInput) (i f b : Bool)
    (c : AmxDotOpCandidate) (h : isAmxCandidate inp i f b = some c) :
    checkInputShapes inp.lhsShape inp.resShape = true ∧
    checkElemTypes inp.lhsElemTy inp.rhsElemTy inp.accElemTy inp.resElemTy
      i f b = some ⟨c.lhsTileElemTy, c.rhsTileElemTy, c.accTileElemTy⟩ ∧
    setupBlockAndTileSizes inp.lhsShape inp.resShape c.lhsTileElemTy.bitWidth =
      ⟨c.tileM, c.tileN, c.tileK, c.tilesInBlockM, c.tilesInBlockN⟩ ∧
    ((inp.loopCarriedAcc = false ∧
        c.keepAccOnTiles = false ∧ c.keepAccInBuf = false) ∨
     (inp.loopCarriedAcc = true ∧
        (c.tilesInBlockM * c.tileM < inp.resShape.getD 0 0 ∨
         c.tilesInBlockN * c.tileN < inp.resShape.getD 1 0) ∧
        c.keepAccOnTiles = false ∧ c.keepAccInBuf = true) ∨
     (inp.loopCarriedAcc = true ∧
        ¬(c.tilesInBlockM * c.tileM < inp.resShape.getD 0 0 ∨
          c.tilesInBlockN * c.tileN < inp.resShape.getD 1 0) ∧
        c.keepAccOnTiles = true ∧ c.keepAccInBuf = false)) := by
  unfold isAmxCandidate at h
  rcases hck : checkElemTypes inp.lhsElemTy inp.rhsElemTy inp.accElemTy
      inp.resElemTy i f b with _ | tys
  · rw [hck] at h
    exact absurd h (by simp)
  · rw [hck] at h
    by_cases hsh : checkInputShapes inp.lhsShape inp.resShape = true
    · rw [hsh] at h
      simp only [Bool.not_true, Bool.false_eq_true, if_false] at h
      by_cases hlc : inp.loopCarriedAcc = true
      · rw [hlc] at h
        simp only [if_true] at h
        by_cases hfit :
            (setupBlockAndTileSizes inp.lhsShape inp.resShape
                tys.lhsTileElemTy.bitWidth).tilesInBlockM *
              (setupBlockAndTileSizes inp.lhsShape inp.resShape
                tys.lhsTileElemTy.bitWidth).tileM < inp.resShape.getD 0 0 ∨
            (setupBlockAndTileSizes inp.lhsShape inp.resShape
                tys.lhsTileElemTy.bitWidth).tilesInBlockN *
              (setupBlockAndTileSizes inp.lhsShape inp.resShape
                tys.lhsTileElemTy.bitWidth).tileN < inp.resShape.getD 1 0
        · rw [if_pos (by simpa using hfit)] at h
          obtain rfl := Option.some.inj h
          exact ⟨hsh, rfl, rfl, Or.inr (Or.inl ⟨hlc, hfit, rfl, rfl⟩)⟩
        · rw [if_neg (by simpa using hfit)] at h
          obtain rfl := Option.some.inj h
          exact ⟨hsh, rfl, rfl, Or.inr (Or.inr ⟨hlc, hfit, rfl, rfl⟩)⟩
      · rw [Bool.not_eq_true] at hlc
        rw [hlc] at h
        simp only [Bool.false_eq_true, if_false] at h
        obtain rfl := Option.some.inj h
        exact ⟨hsh, rfl, rfl, Or.inl ⟨hlc, rfl, rfl⟩⟩
    · rw [Bool.not_eq_true] at hsh
      rw [hsh] at h
      simp at h

/-- C3: every accepted candidate satisfies the descriptor invariants
`1 ≤ tileM ≤ 16`, `1 ≤ tileN ≤ 16`,
`tileK * bitwidth(lhsTileElemTy) ≤ 512` and
`tilesInBlockM * tilesInBlockN ≤ 4`.  The hypothesis `hMN` is the dot
operation's verifier invariant that the result and LHS shapes share the M
dimension. -/
theorem C3_descriptor_invariants (inp : DotInput) (i f b : Bool)
    (c : AmxDotOpCandidate)
    (hMN : inp.resShape.getD 0 0 = inp.lhsShape.getD 0 0)
    (h : isAmxCandidate inp i f b = some c) :
    1 ≤ c.tileM ∧ c.tileM ≤ 16 ∧ 1 ≤ c.tileN ∧ c.tileN ≤ 16 ∧
    c.tileK * c.lhsTileElemTy.bitWidth ≤ 512 ∧
    c.tilesInBlockM * c.tilesInBlockN ≤ 4 := by
  obtain ⟨hsh, -, hts, -⟩ := isAmxCandidate_some_elim inp i f b c h
  obtain ⟨-, hM, -, hN⟩ := (checkInputShapes_eq_true _ _).mp hsh
  simp only [setupBlockAndTileSizes] at hts
  rw [hMN] at hts
  rw [TileSizes.mk.injEq] at hts
  obtain ⟨h1, h2, h3, h4, h5⟩ := hts
  refine ⟨by omega, by omega, by omega, by omega, ?_, ?_⟩
  · rw [← h3]
    calc min (inp.lhsShape.getD 1 0) (512 / c.lhsTileElemTy.bitWidth) *
        c.lhsTileElemTy.bitWidth
        ≤ 512 / c.lhsTileElemTy.bitWidth * c.lhsTileElemTy.bitWidth :=
          Nat.mul_le_mul_right _ (min_le_right _ _)
      _ ≤ 512 := Nat.div_mul_le_self 512 _
  · rw [← h4, ← h5]
    exact halveBlocks_prod_le _ _

/-- C3 (witness): the invariants hold for the concrete 16×16 8-bit integer
candidate. -/
theorem C3_descriptor_invariants_witness :
    1 ≤ (16:Nat) ∧ (16:Nat) ≤ 16 ∧ 1 ≤ (16:Nat) ∧ (16:Nat) ≤ 16 ∧
    (16:Nat) * (ElemTy.int 8).bitWidth ≤ 512 ∧ (1:Nat) * 1 ≤ 4 :=
  C3_descriptor_invariants
    ⟨[16, 16], [16, 16], .int 8, .int 8, .int 32, .int 32, false, false⟩
    true true true
    ⟨.int 8, .int 8, .int 32, 16, 16, 16, 1, 1, false, false, false⟩
    rfl
    (by simp [isAmxCandidate, checkElemTypes, checkInputShapes,
      setupBlockAndTileSizes, halveBlocks, halveStep, ElemTy.isInteger,
      ElemTy.isIntegerW, ElemTy.bitWidth])

/-- C5: for every accepted candidate the analyzer first attempts keeping a
loop-carried accumulator on tiles; when the single-block fit test fails
(`tilesInBlockM*tileM < M` or `tilesInBlockN*tileN < N`) it sets
`keepAccInBuf` instead; at most one of the two flags is set, and for a
non-loop-carried accumulator both are false. -/
theorem C5_acc_placement (inp : DotInput) (i f b : Bool)
    (c : AmxDotOpCandidate) (h : isAmxCandidate inp i f b = some c) :
    (inp.loopCarriedAcc = true →
      ((c.tilesInBlockM * c.tileM < inp.resShape.getD 0 0 ∨
        c.tilesInBlockN * c.tileN < inp.resShape.getD 1 0) →
        c.keepAccOnTiles = false ∧ c.keepAccInBuf = true) ∧
      (¬(c.tilesInBlockM * c.tileM < inp.resShape.getD 0 0 ∨
         c.tilesInBlockN * c.tileN < inp.resShape.getD 1 0) →
        c.keepAccOnTiles = true ∧ c.keepAccInBuf = false)) ∧
    (inp.loopCarriedAcc = false →
      c.keepAccOnTiles = false ∧ c.keepAccInBuf = false) ∧
    ¬(c.keepAccOnTiles = true ∧ c.keepAccInBuf = true) := by
  obtain ⟨-, -, -, hflags⟩ := isAmxCandidate_some_elim inp i f b c h
  rcases hflags with ⟨hlc, h1, h2⟩ | ⟨hlc, hfit, h1, h2⟩ | ⟨hlc, hfit, h1, h2⟩
  · refine ⟨?_, fun _ => ⟨h1, h2⟩, ?_⟩
    · intro hlc2
      rw [hlc] at hlc2
      exact absurd hlc2 (by simp)
    · rw [h1]
      simp
  · refine ⟨fun _ => ⟨fun _ => ⟨h1, h2⟩, fun hc => absurd hfit hc⟩, ?_, ?_⟩
    · intro hlc2
      rw [hlc] at hlc2
      exact absurd hlc2 (by simp)
    · rw [h1]
      simp
  · refine ⟨fun _ => ⟨fun hc => absurd hc hfit, fun _ => ⟨h1, h2⟩⟩, ?_, ?_⟩
    · intro hlc2
      rw [hlc] at hlc2
      exact absurd hlc2 (by simp)
    · rw [h2]
      simp

/-- C5 (witness): the placement flags at a concrete loop-carried candidate
that fits in a single block (the 16×16 8-bit integer dot inside a loop):
keeping on tiles is chosen and the flags are not both set. -/
theorem C5_acc_placement_witness :
    ((true : Bool) = true ∧ (false : Bool) = false) ∧
    ¬((true : Bool) = true ∧ (false : Bool) = true) :=
  ⟨((C5_acc_placement
      ⟨[16, 16], [16, 16], .int 8, .int 8, .int 32, .int 32, true, false⟩
      true true true
      ⟨.int 8, .int 8, .int 32, 16, 16, 16, 1, 1, true, false, false⟩
      (by simp [isAmxCandidate, checkElemTypes, checkInputShapes,
        setupBlockAndTileSizes, halveBlocks, halveStep, ElemTy.isInteger,
        ElemTy.isIntegerW, ElemTy.bitWidth])).1 rfl).2 (by decide),
   (C5_acc_placement
      ⟨[16, 16], [16, 16], .int 8, .int 8, .int 32, .int 32, true, false⟩
      true true true
      ⟨.int 8, .int 8, .int 32, 16, 16, 16, 1, 1, true, false, false⟩
      (by simp [isAmxCandidate, checkElemTypes, checkInputShapes,
        setupBlockAndTileSizes, halveBlocks, halveStep, ElemTy.isInteger,
        ElemTy.isIntegerW, ElemTy.bitWidth])).2.2⟩

/-- C7: a dot operation whose LHS rank is not 2, or whose LHS rows, LHS
columns or result columns are below 8, is rejected by the analyzer no matter
which capability flags are enabled. -/
theorem C7_small_shapes_rejected (inp : DotInput)
    (h : inp.lhsShape.length ≠ 2 ∨ inp.lhsShape.getD 0 0 < 8 ∨
      inp.lhsShape.getD 1 0 < 8 ∨ inp.resShape.getD 1 0 < 8) :
    ∀ i f b : Bool, isAmxCandidate inp i f b = none := by
  intro i f b
  have hsh : ¬ (checkInputShapes inp.lhsShape inp.resShape = true) := by
    rw [checkInputShapes_eq_true]
    omega
  unfold isAmxCandidate
  rcases checkElemTypes inp.lhsElemTy inp.rhsElemTy inp.accElemTy
      inp.resElemTy i f b with _ | tys
  · rfl
  · rw [Bool.not_eq_true] at hsh
    rw [hsh]
    simp

/-- C7 (witness): the 4×4 dot operation of scenario B is rejected with all
flags enabled. -/
theorem C7_small_shapes_rejected_witness :
    isAmxCandidate
      ⟨[4, 4], [4, 4], .int 8, .int 8, .int 32, .int 32, false, false⟩
      true true true = none :=
  C7_small_shapes_rejected
    ⟨[4, 4], [4, 4], .int 8, .int 8, .int 32, .int 32, false, false⟩
    (by simp) true true true

/-- An accumulator wider than 32 bits is rejected by `checkElemTypes` on
every path. -/
theorem checkElemTypes_wide_acc (l r acc res : ElemTy) (i f b : Bool)
    (h : 32 < acc.bitWidth) :
    checkElemTypes l r acc res i f b = none := by
  unfold checkElemTypes
  rcases hcc : commonFpInputElemTy l r b with _ | common <;>
    split_ifs <;> simp_all

/-- On the integer path, a result element wider than 32 bits is rejected by
`checkElemTypes`. -/
theorem checkElemTypes_int_wide_res (l r acc res : ElemTy) (i f b : Bool)
    (hl : l.isInteger = true) (h : 32 < res.bitWidth) :
    checkElemTypes l r acc res i f b = none := by
  unfold checkElemTypes
  rw [hl]
  split_ifs <;> simp_all

/-- On the floating-point path the resolved common input type is always a
16-bit float (plain or brain). -/
theorem commonFpInput_is16 (l r : ElemTy) (b : Bool) (common : ElemTy)
    (hl : l.isInteger = false) (hr : r.isInteger = false)
    (hlw : l.bitWidth ≤ 16) (hrw : r.bitWidth ≤ 16)
    (h : commonFpInputElemTy l r b = some common) :
    common.isF16 = true ∨ common.isBF16 = true := by
  cases b <;> cases l <;> cases r <;>
    simp_all [commonFpInputElemTy, ElemTy.bitWidth, ElemTy.isInteger,
      ElemTy.isF16, ElemTy.isBF16] <;>
    (subst h
     simp [ElemTy.isF16, ElemTy.isBF16])

/-- With all three capability flags disabled, `checkElemTypes` rejects every
combination of element types. -/
theorem checkElemTypes_no_flags (l r acc res : ElemTy) :
    checkElemTypes l r acc res false false false = none := by
  unfold checkElemTypes
  by_cases hint : l.isInteger = true
  · simp [hint]
  · rw [Bool.not_eq_true] at hint
    rw [hint]
    simp only [Bool.false_eq_true, if_false]
    by_cases h1 : (r.isInteger || acc.isInteger || res.isInteger) = true
    · simp [h1]
    · have h1x := h1
      simp only [Bool.or_eq_true, not_or, Bool.not_eq_true] at h1x
      rw [Bool.not_eq_true] at h1
      rw [h1]
      simp only [Bool.false_eq_true, if_false]
      by_cases h2 : (decide (l.bitWidth > 16) || decide (r.bitWidth > 16)) = true
      · simp [h2]
      · have h2x := h2
        simp only [Bool.or_eq_true, not_or, decide_eq_true_eq, not_lt] at h2x
        rw [Bool.not_eq_true] at h2
        rw [h2]
        simp only [Bool.false_eq_true, if_false]
        rcases hcc : commonFpInputElemTy l r false with _ | common
        · rfl
        · have h16 := commonFpInput_is16 l r false common hint h1x.1.1
            h2x.1 h2x.2 hcc
          rcases h16 with h16 | h16 <;> simp [h16]

/-- The common-input-type resolution of the source agrees everywhere with the
rule as claim C4 words it. -/
theorem commonFpInputElemTySpec_eq (l r : ElemTy) (b : Bool) :
    commonFpInputElemTySpec l r b = commonFpInputElemTy l r b := by
  unfold commonFpInputElemTySpec commonFpInputElemTy
  by_cases h1 : l.bitWidth = 16
  · by_cases h2 : r.bitWidth = 16
    · by_cases h3 : l = r
      · have h3' : ¬ (r ≠ l) := fun hc => hc h3.symm
        simp [h1, h2, h3, h3', beq_iff_eq]
      · have h3' : r ≠ l := fun hc => h3 hc.symm
        simp [h1, h2, h3, h3', beq_iff_eq]
    · simp [h1, h2, beq_iff_eq]
  · by_cases h2 : r.bitWidth = 16
    · simp [h1, h2, beq_iff_eq]
    · simp [h1, h2, beq_iff_eq]

/-- C4: on floating-point inputs (element bit-widths within the ranges the
earlier checks admit), `checkElemTypes` implements exactly the claim's
resolution pipeline: mixed 16-bit encodings are rejected, a single 16-bit
input absorbs the other, two sub-16-bit inputs promote to brain-float when
supported and to plain 16-bit float otherwise, and a resolved common type
whose capability flag is disabled is rejected. -/
theorem C4_fp_type_resolution (l r acc res : ElemTy) (i f b : Bool)
    (hl : l.isInteger = false) (hr : r.isInteger = false)
    (ha : acc.isInteger = false) (hres : res.isInteger = false)
    (hlw : l.bitWidth ≤ 16) (hrw : r.bitWidth ≤ 16) :
    checkElemTypes l r acc res i f b = checkElemTypesFpSpec l r acc f b := by
  unfold checkElemTypes checkElemTypesFpSpec
  rw [commonFpInputElemTySpec_eq]
  rw [hl]
  simp only [Bool.false_eq_true, if_false, hr, ha, hres, Bool.or_self,
    not_lt.mpr hlw, not_lt.mpr hrw, decide_eq_false, Bool.or_false]
  rcases hcc : commonFpInputElemTy l r b with _ | common
  · rfl
  · cases common <;> cases f <;> cases b <;>
      simp [ElemTy.isF16, ElemTy.isBF16]

/-- C2 (counterexample): a dot operation with a 64-bit floating-point result
element type (wider than 32 bits) is nevertheless accepted by the analyzer:
the floating-point path never checks the result bit-width. -/
theorem C2_counterexample :
    32 < ElemTy.f64.bitWidth ∧
    isAmxCandidate ⟨[16, 16], [16, 16], .f16, .f16, .f32, .f64, false, false⟩
      true true true ≠ none := by
  constructor
  · decide
  · simp [isAmxCandidate, checkElemTypes, commonFpInputElemTy,
      checkInputShapes, setupBlockAndTileSizes, halveBlocks, halveStep,
      ElemTy.isInteger, ElemTy.bitWidth, ElemTy.isF16, ElemTy.isBF16]

/-- C2 (amended): an accumulator wider than 32 bits is rejected on both the
integer and the floating-point path; a result wider than 32 bits is rejected
on the integer path (on the floating-point path the result element is only
required to be non-integer). -/
theorem C2_wide_types_rejected (inp : DotInput) (i f b : Bool) :
    (32 < inp.accElemTy.bitWidth → isAmxCandidate inp i f b = none) ∧
    (inp.lhsElemTy.isInteger = true → 32 < inp.resElemTy.bitWidth →
      isAmxCandidate inp i f b = none) := by
  constructor
  · intro h
    unfold isAmxCandidate
    rw [checkElemTypes_wide_acc _ _ _ _ _ _ _ h]
  · intro hl h
    unfold isAmxCandidate
    rw [checkElemTypes_int_wide_res _ _ _ _ _ _ _ hl h]

/-- C2 (witness): concrete rejections for a 64-bit accumulator and for a
64-bit integer result. -/
theorem C2_wide_types_rejected_witness :
    isAmxCandidate ⟨[16, 16], [16, 16], .f16, .f16, .f64, .f32, false, false⟩
      true true true = none ∧
    isAmxCandidate
      ⟨[16, 16], [16, 16], .int 8, .int 8, .int 32, .int 64, false, false⟩
      true true true = none :=
  ⟨(C2_wide_types_rejected
      ⟨[16, 16], [16, 16], .f16, .f16, .f64, .f32, false, false⟩
      true true true).1 (by decide),
   (C2_wide_types_rejected
      ⟨[16, 16], [16, 16], .int 8, .int 8, .int 32, .int 64, false, false⟩
      true true true).2 (by decide) (by decide)⟩

/-- C9: with all three capability flags disabled the pass is a no-op: no dot
operation qualifies as a candidate, the collection walk returns nothing, and
the unit is returned unchanged. -/
theorem C9_all_flags_off_noop :
    (∀ inp : DotInput, isAmxCandidate inp false false false = none) ∧
    (∀ unit : List UnitOp,
      collectCandidates false false false unit = [] ∧
      runOnOperation false false false unit = unit) := by
  have hnone : ∀ inp : DotInput, isAmxCandidate inp false false false = none := by
    intro inp
    unfold isAmxCandidate
    rw [checkElemTypes_no_flags]
  refine ⟨hnone, fun unit => ⟨?_, rfl⟩⟩
  unfold collectCandidates
  rw [List.filterMap_eq_nil_iff]
  intro op hop
  cases op with
  | dot inp => simp [hnone]
  | amxLowered c => rfl
  | other id => rfl

/-- C4 (witness): scenario C — a 16-bit-float LHS with an 8-bit-float RHS is
rejected when 16-bit-float support is off even though brain-float support is
on. -/
theorem C4_fp_type_resolution_witness :
    checkElemTypes .f16 .f8e5m2 .f32 .f32 true false true =
      checkElemTypesFpSpec .f16 .f8e5m2 .f32 false true ∧
    checkElemTypesFpSpec .f16 .f8e5m2 .f32 false true = none :=
  ⟨C4_fp_type_resolution .f16 .f8e5m2 .f32 .f32 true false true rfl rfl rfl
    rfl (by decide) (by decide), by decide⟩

/-! ## The interleave transform is a lossless permutation -/

/-- Interleaving equal-length rows doubles the length. -/
theorem length_op_interleave {α : Type} : ∀ (as bs : List α),
    as.length = bs.length →
    (op_interleave as bs).length = as.length + bs.length
  | [], [], _ => rfl
  | [], _ :: _, h => by simp at h
  | _ :: _, [], h => by simp at h
  | a :: as, b :: bs, h => by
    have ih := length_op_interleave as bs (by simpa using h)
    simp [op_interleave, ih]
    omega

/-- `deinterleave` undoes `op_interleave` on equal-length rows. -/
theorem deinterleave_op_interleave {α : Type} : ∀ (as bs : List α),
    as.length = bs.length →
    deinterleave (op_interleave as bs) = (as, bs)
  | [], [], _ => rfl
  | [], _ :: _, h => by simp at h
  | _ :: _, [], h => by simp at h
  | a :: as, b :: bs, h => by
    have ih := deinterleave_op_interleave as bs (by simpa using h)
    simp [op_interleave, deinterleave, ih]

/-- Round trip for two-row groups (16-bit element types). -/
theorem unpackRows2_interleaveAndStore2 {α : Type} (n : Nat) :
    ∀ (rows : List (List α)),
    rows.length % 2 = 0 → (∀ r ∈ rows, r.length = n) →
    unpackRows2 (interleaveAndStore2 rows) = rows
  | [], _, _ => rfl
  | [r], h, _ => by
    simp only [List.length_cons, List.length_nil] at h
    omega
  | r1 :: r2 :: rest, h, hlen => by
    have ih := unpackRows2_interleaveAndStore2 n rest
      (by simp only [List.length_cons] at h; omega)
      (fun r hr => hlen r (by simp [hr]))
    have h12 : r1.length = r2.length := by
      rw [hlen r1 (by simp), hlen r2 (by simp)]
    simp [interleaveAndStore2, unpackRows2, ih,
      deinterleave_op_interleave r1 r2 h12]

/-- Round trip for four-row groups (8-bit element types). -/
theorem unpackRows4_interleaveAndStore4 {α : Type} (n : Nat) :
    ∀ (rows : List (List α)),
    rows.length % 4 = 0 → (∀ r ∈ rows, r.length = n) →
    unpackRows4 (interleaveAndStore4 rows) = rows
  | [], _, _ => rfl
  | [_], h, _ => by
    simp only [List.length_cons, List.length_nil] at h
    omega
  | [_, _], h, _ => by
    simp only [List.length_cons, List.length_nil] at h
    omega
  | [_, _, _], h, _ => by
    simp only [List.length_cons, List.length_nil] at h
    omega
  | r1 :: r2 :: r3 :: r4 :: rest, h, hlen => by
    have ih := unpackRows4_interleaveAndStore4 n rest
      (by simp only [List.length_cons] at h; omega)
      (fun r hr => hlen r (by simp [hr]))
    have h1 : r1.length = n := hlen r1 (by simp)
    have h2 : r2.length = n := hlen r2 (by simp)
    have h3 : r3.length = n := hlen r3 (by simp)
    have h4 : r4.length = n := hlen r4 (by simp)
    have h13 : r1.length = r3.length := by rw [h1, h3]
    have h24 : r2.length = r4.length := by rw [h2, h4]
    have houter : (op_interleave r1 r3).length =
        (op_interleave r2 r4).length := by
      rw [length_op_interleave r1 r3 h13, length_op_interleave r2 r4 h24]
      omega
    simp [interleaveAndStore4, unpackRows4, ih,
      deinterleave_op_interleave _ _ houter,
      deinterleave_op_interleave r1 r3 h13,
      deinterleave_op_interleave r2 r4 h24]

/-- C6: packing with the interleave transform is a lossless permutation of
the input elements: unpacking reproduces the original row order and values
exactly, for every matrix whose row count is a multiple of `rowsPerGroup`,
for `rowsPerGroup ∈ {2, 4}`; and `rowsPerGroup = 32/bitwidth` is 2 for
16-bit and 4 for 8-bit element types. -/
theorem C6_interleave_roundtrip {α : Type} (rpg n : Nat)
    (rows : List (List α)) (hrpg : rpg = 2 ∨ rpg = 4)
    (hrows : rows.length % rpg = 0) (hlen : ∀ r ∈ rows, r.length = n) :
    unpackRows rpg (interleaveAndStore rpg rows) = rows ∧
    rowsPerGroup 16 = 2 ∧ rowsPerGroup 8 = 4 := by
  refine ⟨?_, rfl, rfl⟩
  rcases hrpg with rfl | rfl
  · simpa [unpackRows, interleaveAndStore] using
      unpackRows2_interleaveAndStore2 n rows hrows hlen
  · simpa [unpackRows, interleaveAndStore] using
      unpackRows4_interleaveAndStore4 n rows hrows hlen

/-- C6 (witness): round trip on a concrete 4×2 matrix with four-row groups. -/
theorem C6_interleave_roundtrip_witness :
    unpackRows 4 (interleaveAndStore 4 [[1, 2], [3, 4], [5, 6], [7, 8]]) =
      [[1, 2], [3, 4], [5, 6], [7, 8]] ∧
    rowsPerGroup 16 = 2 ∧ rowsPerGroup 8 = 4 :=
  C6_interleave_roundtrip 4 2 [[1, 2], [3, 4], [5, 6], [7, 8]]
    (Or.inr rfl) (by decide) (by decide)

/-- Counting over a constant-count family concatenated along `List.range`. -/
theorem countP_flatMap_range (p : AmxInstr → Bool) (k c : Nat)
    (g : Nat → List AmxInstr) (hg : ∀ i, (g i).countP p = c) :
    ((List.range k).flatMap g).countP p = k * c := by
  induction k with
  | zero => simp
  | succ k ih =>
    rw [List.range_succ, List.flatMap_append, List.countP_append, ih]
    simp [hg, Nat.succ_mul]

/-- `loadBlockTiles` emits no multiply instructions. -/
theorem countP_isMul_loadBlockTiles (bufNonNull : Bool) (m n : Nat) :
    (loadBlockTiles bufNonNull m n).countP (fun ins => ins.isMul) = 0 := by
  unfold loadBlockTiles
  rw [countP_flatMap_range _ _ 0]
  · omega
  · intro i
    rw [List.countP_map]
    cases bufNonNull <;> simp [AmxInstr.isMul, Function.comp]

/-- `multiplyBlocksPreloadLhs` emits exactly `tilesInBlockM * tilesInBlockN`
multiply instructions. -/
theorem countP_isMul_preloadLhs (accIsInteger : Bool) (m n : Nat)
    (storeResult : Bool) :
    (multiplyBlocksPreloadLhs accIsInteger m n storeResult).countP
      (fun ins => ins.isMul) = m * n := by
  unfold multiplyBlocksPreloadLhs
  rw [List.countP_append, countP_isMul_loadBlockTiles,
    countP_flatMap_range _ _ m]
  · ring
  · intro i
    rw [List.countP_cons]
    rw [countP_flatMap_range _ _ 1]
    · simp [AmxInstr.isMul]
    · intro j
      rw [List.countP_cons]
      cases accIsInteger <;> cases storeResult <;>
        simp [AmxInstr.isMul]

/-- `multiplyBlocksPreloadRhs` emits exactly `tilesInBlockM * tilesInBlockN`
multiply instructions. -/
theorem countP_isMul_preloadRhs (accIsInteger : Bool) (m n : Nat)
    (storeResult : Bool) :
    (multiplyBlocksPreloadRhs accIsInteger m n storeResult).countP
      (fun ins => ins.isMul) = m * n := by
  unfold multiplyBlocksPreloadRhs
  rw [List.countP_append, countP_isMul_loadBlockTiles,
    countP_flatMap_range _ _ n]
  · omega
  · intro i
    rw [List.countP_cons]
    rw [countP_flatMap_range _ _ 1]
    · simp [AmxInstr.isMul]
    · intro j
      rw [List.countP_cons]
      cases accIsInteger <;> cases storeResult <;>
        simp [AmxInstr.isMul]

/-- No instruction emitted by `loadBlockTiles` is a multiply. -/
theorem mem_loadBlockTiles_not_mul (bufNonNull : Bool) (m n : Nat) :
    ∀ ins ∈ loadBlockTiles bufNonNull m n, ins.isMul = false := by
  intro ins hins
  unfold loadBlockTiles at hins
  simp only [List.mem_flatMap, List.mem_map, List.mem_range] at hins
  obtain ⟨i, -, j, -, rfl⟩ := hins
  cases bufNonNull <;> rfl

/-- Every multiply emitted by `multiplyBlocksPreloadLhs` is the variant
selected by the accumulator kind. -/
theorem mem_preloadLhs_mul_variant (accIsInteger : Bool) (m n : Nat)
    (storeResult : Bool) :
    ∀ ins ∈ multiplyBlocksPreloadLhs accIsInteger m n storeResult,
      ins.isMul = true →
      ins = (if accIsInteger then AmxInstr.tileMulI else AmxInstr.tileMulF) := by
  intro ins hins hmul
  unfold multiplyBlocksPreloadLhs at hins
  rw [List.mem_append] at hins
  rcases hins with hins | hins
  · rw [mem_loadBlockTiles_not_mul true m 1 ins hins] at hmul
    exact absurd hmul (by simp)
  · simp only [List.mem_flatMap, List.mem_range, List.mem_cons] at hins
    obtain ⟨i, -, hins⟩ := hins
    rcases hins with rfl | hins
    · exact absurd hmul (by simp [AmxInstr.isMul])
    · obtain ⟨j, -, hins⟩ := hins
      rcases hins with rfl | hins
      · rfl
      · cases storeResult
        · simp at hins
        · simp only [if_true] at hins
          rw [List.mem_singleton] at hins
          subst hins
          exact absurd hmul (by simp [AmxInstr.isMul])

/-- Every multiply emitted by `multiplyBlocksPreloadRhs` is the variant
selected by the accumulator kind. -/
theorem mem_preloadRhs_mul_variant (accIsInteger : Bool) (m n : Nat)
    (storeResult : Bool) :
    ∀ ins ∈ multiplyBlocksPreloadRhs accIsInteger m n storeResult,
      ins.isMul = true →
      ins = (if accIsInteger then AmxInstr.tileMulI else AmxInstr.tileMulF) := by
  intro ins hins hmul
  unfold multiplyBlocksPreloadRhs at hins
  rw [List.mem_append] at hins
  rcases hins with hins | hins
  · rw [mem_loadBlockTiles_not_mul true 1 n ins hins] at hmul
    exact absurd hmul (by simp)
  · simp only [List.mem_flatMap, List.mem_range, List.mem_cons] at hins
    obtain ⟨i, -, hins⟩ := hins
    rcases hins with rfl | hins
    · exact absurd hmul (by simp [AmxInstr.isMul])
    · obtain ⟨j, -, hins⟩ := hins
      rcases hins with rfl | hins
      · rfl
      · cases storeResult
        · simp at hins
        · simp only [if_true] at hins
          rw [List.mem_singleton] at hins
          subst hins
          exact absurd hmul (by simp [AmxInstr.isMul])

/-- One accumulator block generates exactly
`tilesInBlockM * tilesInBlockN * (K / tileK)` multiply instructions. -/
theorem accBlockInstrs_mul_count (c : AmxDotOpCandidate) (lhsK : Nat)
    (accBufNonNull : Bool) :
    (accBlockInstrs c lhsK accBufNonNull).countP (fun ins => ins.isMul) =
      c.tilesInBlockM * c.tilesInBlockN * (lhsK / c.tileK) := by
  unfold accBlockInstrs
  rw [List.countP_append,
    countP_flatMap_range _ _ (c.tilesInBlockM * c.tilesInBlockN)]
  · have hpre : (if !c.keepAccOnTiles then
        loadBlockTiles accBufNonNull c.tilesInBlockM c.tilesInBlockN
      else []).countP (fun ins => ins.isMul) = 0 := by
      split
      · exact countP_isMul_loadBlockTiles _ _ _
      · rfl
    rw [hpre]
    ring
  · intro i
    split
    · exact countP_isMul_preloadLhs _ _ _ _
    · exact countP_isMul_preloadRhs _ _ _ _

/-- Every multiply generated for an accumulator block is the variant selected
by the accumulator kind. -/
theorem mem_accBlockInstrs_mul_variant (c : AmxDotOpCandidate) (lhsK : Nat)
    (accBufNonNull : Bool) :
    ∀ ins ∈ accBlockInstrs c lhsK accBufNonNull, ins.isMul = true →
      ins = (if c.accTileElemTy.isInteger then AmxInstr.tileMulI
             else AmxInstr.tileMulF) := by
  intro ins hins hmul
  unfold accBlockInstrs at hins
  rw [List.mem_append] at hins
  rcases hins with hins | hins
  · revert hins
    split
    · intro hins
      rw [mem_loadBlockTiles_not_mul _ _ _ ins hins] at hmul
      exact absurd hmul (by simp)
    · intro hins
      simp at hins
  · simp only [List.mem_flatMap, List.mem_range] at hins
    obtain ⟨i, -, hins⟩ := hins
    revert hins
    split
    · intro hins
      exact mem_preloadLhs_mul_variant _ _ _ _ ins hins hmul
    · intro hins
      exact mem_preloadRhs_mul_variant _ _ _ _ ins hins hmul

/-- C8: for every accepted candidate and every accumulator block, the
generated code contains exactly `tilesInBlockM * tilesInBlockN * (K/tileK)`
hardware multiply-accumulate instructions, each being the integer variant
when the legalized accumulator tile element type is integer and the
floating-point variant otherwise. -/
theorem C8_block_mul_count (inp : DotInput) (i f b : Bool)
    (c : AmxDotOpCandidate) (accBufNonNull : Bool)
    (h : isAmxCandidate inp i f b = some c) :
    (accBlockInstrs c (inp.lhsShape.getD 1 0) accBufNonNull).countP
        (fun ins => ins.isMul) =
      c.tilesInBlockM * c.tilesInBlockN *
        (inp.lhsShape.getD 1 0 / c.tileK) ∧
    ∀ ins ∈ accBlockInstrs c (inp.lhsShape.getD 1 0) accBufNonNull,
      ins.isMul = true →
      ins = (if c.accTileElemTy.isInteger then AmxInstr.tileMulI
             else AmxInstr.tileMulF) :=
  ⟨accBlockInstrs_mul_count c _ accBufNonNull,
   mem_accBlockInstrs_mul_variant c _ accBufNonNull⟩

/-- C8 (witness): the single block of the 16×16 8-bit integer candidate
contains exactly one multiply. -/
theorem C8_block_mul_count_witness :
    (accBlockInstrs
        ⟨.int 8, .int 8, .int 32, 16, 16, 16, 1, 1, false, false, false⟩
        16 true).countP (fun ins => ins.isMul) = 1 * 1 * (16 / 16) :=
  (C8_block_mul_count
    ⟨[16, 16], [16, 16], .int 8, .int 8, .int 32, .int 32, false, false⟩
    true true true
    ⟨.int 8, .int 8, .int 32, 16, 16, 16, 1, 1, false, false, false⟩
    true
    (by simp [isAmxCandidate, checkElemTypes, checkInputShapes,
      setupBlockAndTileSizes, halveBlocks, halveStep, ElemTy.isInteger,
      ElemTy.isIntegerW, ElemTy.bitWidth])).1

end ConvertDotToAMX
